import Mathlib

/-!
Verification of the chat-harvesting core of `get_replies.py`.

The Python source is shallowly embedded: `ChatMessage` with its two methods
`to_csv_row` and `get_unique_id`, the scraper state (`seen_messages`,
`current_batch`, `total_messages`) together with the output CSV file modelled
as its list of rows, the batch flush `write_batch_to_csv` (mode `'a'` iff
`total_messages > BATCH_SIZE`, header written in mode `'w'`), the accept path
of `process_chat_message`, the final drain performed at the end of `scrape`,
the duration fallback of `get_video_duration`, and the polling loop of
`scrape` as a step function over a schedule of per-iteration outcomes.

The ghost field `flush_modes` records, for each flush performed so far, the
mode it used (`true` = append `'a'`, `false` = create/truncate `'w'`, the mode
that writes the header row); it instruments the code without altering it.
-/

/-- Data structure for chat messages, mirroring the `ChatMessage` dataclass:
fields `video_time`, `author`, `timestamp`, `message`. -/
structure ChatMessage where
  video_time : String
  author : String
  timestamp : String
  message : String
deriving DecidableEq, Repr

/-- Mirrors `ChatMessage.to_csv_row`: the four fields in declaration order. -/
def ChatMessage.to_csv_row (m : ChatMessage) : List String :=
  [m.video_time, m.author, m.timestamp, m.message]

/-- Mirrors `ChatMessage.get_unique_id`:
the f-string `f"{author}_{timestamp}_{message}"`. -/
def ChatMessage.get_unique_id (m : ChatMessage) : String :=
  m.author ++ "_" ++ m.timestamp ++ "_" ++ m.message

/-- Mirrors `YouTubeChatScraper.BATCH_SIZE = 500`. -/
def BATCH_SIZE : Nat := 500

/-- The fixed header row written by `write_batch_to_csv` in mode `'w'`. -/
def headerRow : List String := ["Video Time", "Commenter", "Time", "Comment"]

/-- The scraper's mutable state (`__init__`) plus the output file modelled as
its list of CSV rows.  `flush_modes` is ghost instrumentation recording the
mode of every flush performed so far (`true` = `'a'`, `false` = `'w'`). -/
structure HarvestState where
  seen_messages : List String
  current_batch : List ChatMessage
  total_messages : Nat
  file_rows : List (List String)
  flush_modes : List Bool
deriving DecidableEq, Repr

/-- The state built by `YouTubeChatScraper.__init__`: empty seen-set, empty
batch, zero counter; the output file does not exist yet (no rows). -/
def initState : HarvestState :=
  { seen_messages := []
    current_batch := []
    total_messages := 0
    file_rows := []
    flush_modes := [] }

/-- Mirrors `write_batch_to_csv` on the success path:
`mode = 'a' if total_messages > BATCH_SIZE else 'w'`; in mode `'w'` the file
is created/truncated and the header row is written first; the batch rows are
appended in order; afterwards `current_batch.clear()`. -/
def write_batch_to_csv (st : HarvestState) : HarvestState :=
  { st with
    file_rows :=
      if BATCH_SIZE < st.total_messages then
        st.file_rows ++ st.current_batch.map ChatMessage.to_csv_row
      else
        headerRow :: st.current_batch.map ChatMessage.to_csv_row
    current_batch := []
    flush_modes := st.flush_modes ++ [decide (BATCH_SIZE < st.total_messages)] }

/-- Mirrors the accept path of `process_chat_message`: if the unique id is not
in `seen_messages`, record it, append the message to the batch, increment
`total_messages`, and flush when the batch has reached `BATCH_SIZE`. -/
def process_chat_message (st : HarvestState) (m : ChatMessage) : HarvestState :=
  if m.get_unique_id ∈ st.seen_messages then st
  else
    let st1 : HarvestState :=
      { st with
        seen_messages := m.get_unique_id :: st.seen_messages
        current_batch := st.current_batch ++ [m]
        total_messages := st.total_messages + 1 }
    if BATCH_SIZE ≤ st1.current_batch.length then write_batch_to_csv st1 else st1

/-- Presents a sequence of candidate messages (possibly spanning many polls)
to `process_chat_message` in order. -/
def processAll (st : HarvestState) (ms : List ChatMessage) : HarvestState :=
  ms.foldl process_chat_message st

/-- Mirrors the end of `scrape`: `if self.current_batch: self.write_batch_to_csv()`. -/
def drainBatch (st : HarvestState) : HarvestState :=
  if st.current_batch = [] then st else write_batch_to_csv st

/-- One whole harvest session on a candidate sequence: process every candidate,
then drain the final batch. -/
def runSession (ms : List ChatMessage) : HarvestState :=
  drainBatch (processAll initState ms)

/-- The subsequence of candidates the deduplicator accepts, given the ids
already seen: the specification-level mirror of the `if message_id not in
self.seen_messages` filter. -/
def acceptedOf (seen : List String) : List ChatMessage → List ChatMessage
  | [] => []
  | m :: ms =>
    if m.get_unique_id ∈ seen then acceptedOf seen ms
    else m :: acceptedOf (m.get_unique_id :: seen) ms

/-- The sequence of flush modes a session with `k` flushes exhibits: the first
flush uses `'w'` (`false`), every later flush uses `'a'` (`true`). -/
def modesFor : Nat → List Bool
  | 0 => []
  | k + 1 => false :: List.replicate k true

/-- Mirrors `get_video_duration`: the argument is the text of the duration
element, `none` when the element lookup raises.  The text is split on `":"`;
two parts parse as MM:SS, three or more as HH:MM:SS (extra parts ignored, as
in the source which indexes only `parts[0..2]`); any raise inside the `try`
(lookup failure, too few parts, `int()` failure) yields the default 14400. -/
def get_video_duration (durText : Option String) : Nat :=
  match durText with
  | none => 14400
  | some t =>
    match (t.splitOn ":").map String.toNat? with
    | [some m, some s] => m * 60 + s
    | some h :: some m :: some s :: _ => h * 3600 + m * 60 + s
    | _ => 14400

/-- Outcome of one iteration of the polling loop in `scrape`:
`ok` means the body ran to the `time.sleep(1)`; `iterFail b` means the body
raised and the handler ran `switch_to_chat_frame()`, which itself raised when
`b = true`. -/
inductive IterEvent where
  | ok : IterEvent
  | iterFail : Bool → IterEvent
deriving DecidableEq, Repr

/-- How the polling loop of `scrape` left (or has not yet left) the loop:
`finished n` = the elapsed-time check broke the loop after `n` iterations and
control reached the final drain; `raised n` = an exception escaped the loop on
iteration `n`; `pending n t` = the modelled schedule is exhausted after `n`
iterations with elapsed time `t` and the loop is still running. -/
inductive LoopExit where
  | finished : Nat → LoopExit
  | raised : Nat → LoopExit
  | pending : Nat → Nat → LoopExit
deriving DecidableEq, Repr

/-- The polling loop of `scrape`: elapsed time is checked at the top
(`if current_time >= duration_seconds: break`); a normal iteration ends in
`time.sleep(interval)` so it advances elapsed time by `interval`; an
iteration whose body raises skips the sleep (the handler does `continue`),
so it advances elapsed time by nothing; if the handler's
`switch_to_chat_frame()` raises, the exception escapes the loop. -/
def pollLoop (duration interval : Nat) : Nat → Nat → List IterEvent → LoopExit
  | iters, elapsed, events =>
    if duration ≤ elapsed then LoopExit.finished iters
    else
      match events with
      | [] => LoopExit.pending iters elapsed
      | IterEvent.ok :: es =>
        pollLoop duration interval (iters + 1) (elapsed + interval) es
      | IterEvent.iterFail true :: _ => LoopExit.raised (iters + 1)
      | IterEvent.iterFail false :: es =>
        pollLoop duration interval (iters + 1) elapsed es

/-- The prefix of `scrape` relevant to the duration fallback: resolve the
duration (defaulting on failure), then run the polling loop with the source's
fixed one-second sleep. -/
def scrapeRun (durText : Option String) (events : List IterEvent) : LoopExit :=
  pollLoop (get_video_duration durText) 1 0 0 events

/-- Mirrors `write_batch_to_csv` including its failure path.  `failAt = none`
is the success path.  `failAt = some i` models the underlying write raising
after `i` data rows have been emitted: the rows written before the raise stay
in the (closed-on-unwind) file, the exception propagates (`Except.error`),
and neither the batch, the counter, nor the seen-set is touched. -/
def write_batch_to_csv_attempt (st : HarvestState) (failAt : Option Nat) :
    Except HarvestState HarvestState :=
  match failAt with
  | none => Except.ok (write_batch_to_csv st)
  | some i =>
    Except.error
      { st with
        file_rows :=
          (if BATCH_SIZE < st.total_messages then st.file_rows else [headerRow]) ++
            (st.current_batch.take i).map ChatMessage.to_csv_row }

/-- The all-or-nothing property claimed of a flush: on a failed flush, either
no buffered message's row made it into the file, or all of them did. -/
def flushAllOrNothing (st : HarvestState) (failAt : Option Nat) : Prop :=
  match write_batch_to_csv_attempt st failAt with
  | Except.ok _ => True
  | Except.error st1 =>
      (∀ m ∈ st.current_batch, ChatMessage.to_csv_row m ∉ st1.file_rows) ∨
      (∀ m ∈ st.current_batch, ChatMessage.to_csv_row m ∈ st1.file_rows)

instance (st : HarvestState) (failAt : Option Nat) :
    Decidable (flushAllOrNothing st failAt) := by
  unfold flushAllOrNothing
  cases write_batch_to_csv_attempt st failAt <;> simp <;> infer_instance

/-- A family of pairwise-distinct candidate messages (the author strings have
pairwise different lengths), used to exercise the batch boundary. -/
def mkMsg (n : Nat) : ChatMessage :=
  { video_time := "0:00"
    author := String.mk (List.replicate n 'a')
    timestamp := "t"
    message := "hi" }

/-- The first `n` distinct candidates. -/
def mkMsgs (n : Nat) : List ChatMessage := (List.range n).map mkMsg

/-! ## Lemmas about the polling loop -/

/-- One-step unfolding of `pollLoop`. -/
lemma pollLoop_eq (d i iters elapsed : Nat) (events : List IterEvent) :
    pollLoop d i iters elapsed events =
      if d ≤ elapsed then LoopExit.finished iters
      else
        match events with
        | [] => LoopExit.pending iters elapsed
        | IterEvent.ok :: es => pollLoop d i (iters + 1) (elapsed + i) es
        | IterEvent.iterFail true :: _ => LoopExit.raised (iters + 1)
        | IterEvent.iterFail false :: es => pollLoop d i (iters + 1) elapsed es := by
  rw [pollLoop.eq_def]

/-- The loop leaves immediately once elapsed time has reached the duration. -/
lemma pollLoop_done {d elapsed : Nat} (i iters : Nat) (es : List IterEvent)
    (h : d ≤ elapsed) : pollLoop d i iters elapsed es = LoopExit.finished iters := by
  rw [pollLoop_eq, if_pos h]

/-- A normal iteration sleeps, advancing elapsed time by the interval. -/
lemma pollLoop_ok {d elapsed : Nat} (i iters : Nat) (es : List IterEvent)
    (h : elapsed < d) :
    pollLoop d i iters elapsed (IterEvent.ok :: es) =
      pollLoop d i (iters + 1) (elapsed + i) es := by
  rw [pollLoop_eq, if_neg (Nat.not_le.mpr h)]

/-- An iteration whose body raises but whose handler reconnects successfully
continues the loop without advancing elapsed time (the sleep is skipped). -/
lemma pollLoop_failF {d elapsed : Nat} (i iters : Nat) (es : List IterEvent)
    (h : elapsed < d) :
    pollLoop d i iters elapsed (IterEvent.iterFail false :: es) =
      pollLoop d i (iters + 1) elapsed es := by
  rw [pollLoop_eq, if_neg (Nat.not_le.mpr h)]

/-- An iteration whose handler's reconnection itself raises lets the exception
escape the loop. -/
lemma pollLoop_failT {d elapsed : Nat} (i iters : Nat) (es : List IterEvent)
    (h : elapsed < d) :
    pollLoop d i iters elapsed (IterEvent.iterFail true :: es) =
      LoopExit.raised (iters + 1) := by
  rw [pollLoop_eq, if_neg (Nat.not_le.mpr h)]

/-- Schedule exhausted with the loop still running. -/
lemma pollLoop_nil {d elapsed : Nat} (i iters : Nat) (h : elapsed < d) :
    pollLoop d i iters elapsed [] = LoopExit.pending iters elapsed := by
  rw [pollLoop_eq, if_neg (Nat.not_le.mpr h)]

/-- On a schedule of normal iterations, the loop runs exactly
`⌈(duration - elapsed) / interval⌉` more iterations and then leaves through
the elapsed-time check. -/
lemma pollLoop_ok_sched (I : Nat) (hI : 0 < I) (es : List IterEvent) :
    ∀ (D iters elapsed : Nat),
      (∀ e ∈ es, e = IterEvent.ok) →
      (D - elapsed + I - 1) / I ≤ es.length →
      pollLoop D I iters elapsed es =
        LoopExit.finished (iters + (D - elapsed + I - 1) / I) := by
  induction es with
  | nil =>
    intro D iters elapsed _ hlen
    have h0 : (D - elapsed + I - 1) / I = 0 := Nat.le_zero.mp (by simpa using hlen)
    have hle : D ≤ elapsed := by
      by_contra hlt
      push_neg at hlt
      have hsmall : D - elapsed + I - 1 < I := (Nat.div_eq_zero_iff hI).mp h0
      omega
    rw [pollLoop_done I iters [] hle, h0, Nat.add_zero]
  | cons e es ih =>
    intro D iters elapsed hok hlen
    have he : e = IterEvent.ok := hok e (by simp)
    subst he
    simp only [List.length_cons] at hlen
    by_cases hle : D ≤ elapsed
    · have h0 : (D - elapsed + I - 1) / I = 0 := by
        have hz : D - elapsed = 0 := by omega
        rw [hz]
        exact Nat.div_eq_of_lt (by omega)
      rw [pollLoop_done I iters _ hle, h0, Nat.add_zero]
    · push_neg at hle
      have key : (D - elapsed + I - 1) / I = (D - (elapsed + I) + I - 1) / I + 1 := by
        have hrw : D - elapsed + I - 1 = (D - elapsed - 1) + I := by omega
        rw [hrw, Nat.add_div_right _ hI]
        congr 1
        by_cases hRI : I ≤ D - elapsed
        · congr 1
          omega
        · have h1 : D - (elapsed + I) = 0 := by omega
          rw [h1, Nat.div_eq_of_lt (by omega), Nat.div_eq_of_lt (by omega)]
      rw [pollLoop_ok I iters es hle,
        ih D (iters + 1) (elapsed + I) (fun x hx => hok x (by simp [hx])) (by omega)]
      congr 1
      omega

/-- On a schedule consisting only of failing iterations whose handler
reconnects successfully, the loop keeps iterating without advancing elapsed
time: after consuming the whole schedule it is still inside the loop. -/
lemma pollLoop_fail_sched (d i c : Nat) :
    ∀ iters elapsed, elapsed < d →
      pollLoop d i iters elapsed (List.replicate c (IterEvent.iterFail false)) =
        LoopExit.pending (iters + c) elapsed := by
  induction c with
  | zero =>
    intro iters elapsed h
    simpa using pollLoop_nil i iters h
  | succ c ih =>
    intro iters elapsed h
    rw [List.replicate_succ, pollLoop_failF i iters _ h, ih (iters + 1) elapsed h]
    congr 1
    omega

/-- If no iteration's recovery step fails, no exception ever escapes the loop. -/
lemma pollLoop_no_raise (d i : Nat) (es : List IterEvent)
    (hsafe : ∀ e ∈ es, e ≠ IterEvent.iterFail true) :
    ∀ iters elapsed n, pollLoop d i iters elapsed es ≠ LoopExit.raised n := by
  induction es with
  | nil =>
    intro iters elapsed n
    by_cases h : d ≤ elapsed
    · rw [pollLoop_done i iters [] h]
      simp
    · rw [pollLoop_nil i iters (Nat.not_le.mp h)]
      simp
  | cons e es ih =>
    intro iters elapsed n
    have hsafe' : ∀ x ∈ es, x ≠ IterEvent.iterFail true :=
      fun x hx => hsafe x (by simp [hx])
    by_cases h : d ≤ elapsed
    · rw [pollLoop_done i iters _ h]
      simp
    · push_neg at h
      cases e with
      | ok =>
        rw [pollLoop_ok i iters es h]
        exact ih hsafe' _ _ n
      | iterFail b =>
        cases b with
        | false =>
          rw [pollLoop_failF i iters es h]
          exact ih hsafe' _ _ n
        | true => exact absurd rfl (hsafe _ (by simp))

/-! ## Claims about the polling loop and duration fallback -/

/-- C6 (amended): an exception raised by the body of a polling iteration is
caught by the iteration-level handler and the loop continues (without the
sleep) after the handler re-establishes the chat-frame connection; but if the
re-establishment step inside the handler itself raises, that exception
escapes the polling loop; when no recovery step fails, no exception ever
escapes the loop. -/
theorem iteration_error_containment :
    (∀ (d i iters elapsed : Nat) (es : List IterEvent), elapsed < d →
        pollLoop d i iters elapsed (IterEvent.iterFail false :: es) =
          pollLoop d i (iters + 1) elapsed es) ∧
    (∀ (d i iters elapsed : Nat) (es : List IterEvent), elapsed < d →
        pollLoop d i iters elapsed (IterEvent.iterFail true :: es) =
          LoopExit.raised (iters + 1)) ∧
    (∀ (d i : Nat) (es : List IterEvent),
        (∀ e ∈ es, e ≠ IterEvent.iterFail true) →
        ∀ n, pollLoop d i 0 0 es ≠ LoopExit.raised n) :=
  ⟨fun _ i iters _ es h => pollLoop_failF i iters es h,
   fun _ i iters _ es h => pollLoop_failT i iters es h,
   fun d i es hsafe n => pollLoop_no_raise d i es hsafe 0 0 n⟩

/-- Witness for `iteration_error_containment` at concrete inputs. -/
theorem iteration_error_containment_witness :
    pollLoop 5 1 0 0 [IterEvent.iterFail false] = pollLoop 5 1 1 0 [] ∧
    pollLoop 5 1 0 0 [IterEvent.iterFail true] = LoopExit.raised 1 ∧
    pollLoop 5 1 0 0 [IterEvent.ok] ≠ LoopExit.raised 1 :=
  ⟨iteration_error_containment.1 5 1 0 0 [] (by decide),
   iteration_error_containment.2.1 5 1 0 0 [] (by decide),
   iteration_error_containment.2.2 5 1 [IterEvent.ok] (by decide) 1⟩

/-- C6 counterexample to the claim as stated: when the very first iteration's
body raises and the handler's `switch_to_chat_frame()` call also raises, the
exception escapes the polling loop (the run ends in `LoopExit.raised`), so
iteration-level exceptions do not always stay contained. -/
theorem iteration_error_escape_cex :
    pollLoop 14400 1 0 0 [IterEvent.iterFail true] = LoopExit.raised 1 := by
  decide

/-- C7: when the duration lookup raises (modelled by `none`),
`get_video_duration` returns the default 14400 seconds, the session proceeds
into the polling loop with that bound instead of aborting, and the loop then
terminates after 14400 one-second polls. -/
theorem duration_fallback :
    get_video_duration none = 14400 ∧
    (∀ evs, scrapeRun none evs = pollLoop 14400 1 0 0 evs) ∧
    scrapeRun none (List.replicate 14400 IterEvent.ok) = LoopExit.finished 14400 := by
  refine ⟨rfl, fun evs => rfl, ?_⟩
  have h := pollLoop_ok_sched 1 (by decide) (List.replicate 14400 IterEvent.ok)
    14400 0 0 (fun e he => List.eq_of_mem_replicate he)
    (by rw [List.length_replicate])
  have harith : 0 + (14400 - 0 + 1 - 1) / 1 = 14400 := by norm_num
  rw [harith] at h
  exact h

/-- C8 (amended): with poll interval `I > 0` and duration `D`, a run in which
every iteration completes normally performs exactly `⌈D / I⌉` iterations
before leaving the loop for the final drain; but iterations that take the
exception-recovery path bypass the sleep and advance elapsed time by nothing,
so the number of such iterations is not bounded in terms of `D` and `I`:
after any number `c` of recovery iterations the loop is still running. -/
theorem termination_bound_amended :
    (∀ (D I : Nat) (es : List IterEvent), 0 < I →
        (∀ e ∈ es, e = IterEvent.ok) →
        (D + I - 1) / I ≤ es.length →
        pollLoop D I 0 0 es = LoopExit.finished ((D + I - 1) / I)) ∧
    (∀ c, pollLoop 1 1 0 0 (List.replicate c (IterEvent.iterFail false)) =
        LoopExit.pending c 0) := by
  constructor
  · intro D I es hI hok hlen
    have h := pollLoop_ok_sched I hI es D 0 0 hok (by simpa using hlen)
    simpa using h
  · intro c
    have h := pollLoop_fail_sched 1 1 c 0 0 (by omega)
    rw [Nat.zero_add] at h
    exact h

/-- Witness for `termination_bound_amended` at concrete inputs. -/
theorem termination_bound_amended_witness :
    pollLoop 3 1 0 0 (List.replicate 3 IterEvent.ok) = LoopExit.finished 3 ∧
    pollLoop 1 1 0 0 (List.replicate 2 (IterEvent.iterFail false)) =
      LoopExit.pending 2 0 := by
  constructor
  · have h := termination_bound_amended.1 3 1 (List.replicate 3 IterEvent.ok)
      (by decide) (by decide) (by decide)
    have harith : (3 + 1 - 1) / 1 = 3 := by norm_num
    rw [harith] at h
    exact h
  · exact termination_bound_amended.2 2

/-- C8 counterexample to the claim as stated: with duration `D = 1` and
interval `I = 1` (so `⌈D / I⌉ = 1`), a schedule of 1000001 exception-recovery
iterations leaves the loop still running after 1000001 iterations — far more
than `⌈D / I⌉ + O(1)` for any reasonable constant — because the recovery path
bypasses the sleep and never advances elapsed time. -/
theorem termination_bound_cex :
    pollLoop 1 1 0 0 (List.replicate 1000001 (IterEvent.iterFail false)) =
      LoopExit.pending 1000001 0 := by
  have h := pollLoop_fail_sched 1 1 1000001 0 0 (by omega)
  rw [Nat.zero_add] at h
  exact h

/-- C9: the fingerprint concatenates author, timestamp and body with `'_'` and
no escaping, so the two distinct logical messages (author `"a_b"`, timestamp
`"c"`) and (author `"a"`, timestamp `"b_c"`) with the same body collide; when
both are presented, only the first is accepted and the second is rejected by
the deduplicator. -/
theorem fingerprint_collision :
    (ChatMessage.mk "0:01" "a_b" "c" "m").get_unique_id =
      (ChatMessage.mk "0:02" "a" "b_c" "m").get_unique_id ∧
    ((ChatMessage.mk "0:01" "a_b" "c" "m").author,
        (ChatMessage.mk "0:01" "a_b" "c" "m").timestamp,
        (ChatMessage.mk "0:01" "a_b" "c" "m").message) ≠
      ((ChatMessage.mk "0:02" "a" "b_c" "m").author,
        (ChatMessage.mk "0:02" "a" "b_c" "m").timestamp,
        (ChatMessage.mk "0:02" "a" "b_c" "m").message) ∧
    acceptedOf []
        [ChatMessage.mk "0:01" "a_b" "c" "m", ChatMessage.mk "0:02" "a" "b_c" "m"] =
      [ChatMessage.mk "0:01" "a_b" "c" "m"] := by
  decide

/-! ## Claims about the flush failure path -/

/-- A concrete scraper state about to flush a two-message batch into a fresh
file (`total_messages = 2`, so the flush runs in mode `'w'`). -/
def cexFlushState : HarvestState :=
  { seen_messages := []
    current_batch := [ChatMessage.mk "0:01" "u" "t" "x", ChatMessage.mk "0:02" "v" "t" "y"]
    total_messages := 2
    file_rows := []
    flush_modes := [] }

/-- C4 counterexample to the claim as stated: a flush that raises after
writing one of its two rows leaves exactly one buffered message's row in the
file — neither all of the batch nor none of it — so a failed flush is not
all-or-nothing. -/
theorem flush_partial_persistence_cex :
    ¬ flushAllOrNothing cexFlushState (some 1) := by
  decide

/-- C4 (amended): when the underlying write of a flush raises, the error
propagates to the caller (`Except.error`) and the in-memory batch, the message
counter, the seen-set and the flush history are all left unchanged for the
caller's retry decision; however the data rows written before the raise remain
in the file (persistence can be partial).  On the success path the flush
writes the whole batch and clears it. -/
theorem flush_error_propagation (st : HarvestState) (failAt : Option Nat)
    (st1 : HarvestState) :
    (write_batch_to_csv_attempt st failAt = Except.error st1 →
        st1.current_batch = st.current_batch ∧
        st1.total_messages = st.total_messages ∧
        st1.seen_messages = st.seen_messages ∧
        st1.flush_modes = st.flush_modes ∧
        ∃ i, st1.file_rows =
          (if BATCH_SIZE < st.total_messages then st.file_rows else [headerRow]) ++
            (st.current_batch.take i).map ChatMessage.to_csv_row) ∧
    (write_batch_to_csv_attempt st failAt = Except.ok st1 →
        st1 = write_batch_to_csv st ∧ st1.current_batch = []) := by
  constructor
  · intro h
    cases failAt with
    | none => simp [write_batch_to_csv_attempt] at h
    | some i =>
      simp only [write_batch_to_csv_attempt, Except.error.injEq] at h
      subst h
      exact ⟨rfl, rfl, rfl, rfl, i, rfl⟩
  · intro h
    cases failAt with
    | none =>
      simp only [write_batch_to_csv_attempt, Except.ok.injEq] at h
      subst h
      exact ⟨rfl, rfl⟩
    | some i => simp [write_batch_to_csv_attempt] at h

/-- Witness for `flush_error_propagation` at a concrete failing flush. -/
theorem flush_error_propagation_witness :
    ({ cexFlushState with
        file_rows := [headerRow, ["0:01", "u", "t", "x"]] } : HarvestState).current_batch =
        cexFlushState.current_batch ∧
      ({ cexFlushState with
        file_rows := [headerRow, ["0:01", "u", "t", "x"]] } : HarvestState).total_messages =
        cexFlushState.total_messages ∧
      ({ cexFlushState with
        file_rows := [headerRow, ["0:01", "u", "t", "x"]] } : HarvestState).seen_messages =
        cexFlushState.seen_messages ∧
      ({ cexFlushState with
        file_rows := [headerRow, ["0:01", "u", "t", "x"]] } : HarvestState).flush_modes =
        cexFlushState.flush_modes ∧
      ∃ i, ({ cexFlushState with
        file_rows := [headerRow, ["0:01", "u", "t", "x"]] } : HarvestState).file_rows =
          (if BATCH_SIZE < cexFlushState.total_messages then cexFlushState.file_rows
            else [headerRow]) ++
            (cexFlushState.current_batch.take i).map ChatMessage.to_csv_row :=
  (flush_error_propagation cexFlushState (some 1)
    { cexFlushState with file_rows := [headerRow, ["0:01", "u", "t", "x"]] }).1
    (by rfl)

/-! ## The session invariant relating the scraper state to the accepted
sequence -/

/-- Length of the flush-mode history. -/
lemma modesFor_length (k : Nat) : (modesFor k).length = k := by
  cases k with
  | zero => rfl
  | succ j => simp [modesFor]

/-- Appending a `'w'` flush to an empty history. -/
lemma modesFor_snoc_w : ([] : List Bool) ++ [false] = modesFor 1 := rfl

/-- Appending an `'a'` flush to a nonempty history. -/
lemma modesFor_snoc_a (k : Nat) : modesFor (k + 1) ++ [true] = modesFor (k + 2) := by
  simp [modesFor, List.replicate_succ']

/-- The invariant holding between operations during the accept phase of a
session: `acc` is the sequence of messages accepted so far, `k` the number of
flushes performed so far.  The batch holds the accepted messages past the
first `BATCH_SIZE * k` (all of which have been flushed, in order, behind the
header written by the first flush), the counter equals the number accepted,
fewer than `BATCH_SIZE` messages are buffered, and every flush so far used
mode `'w'` exactly when it was the first. -/
def InvAcc (acc : List ChatMessage) (st : HarvestState) : Prop :=
  st.current_batch = acc.drop (BATCH_SIZE * st.flush_modes.length) ∧
  st.total_messages = acc.length ∧
  BATCH_SIZE * st.flush_modes.length ≤ acc.length ∧
  acc.length < BATCH_SIZE * (st.flush_modes.length + 1) ∧
  st.flush_modes = modesFor st.flush_modes.length ∧
  st.file_rows =
    (if st.flush_modes.length = 0 then ([] : List (List String))
     else
       headerRow ::
         (acc.take (BATCH_SIZE * st.flush_modes.length)).map ChatMessage.to_csv_row)

/-- The initial state satisfies the invariant with nothing accepted. -/
lemma InvAcc_init : InvAcc [] initState := by
  refine ⟨rfl, rfl, ?_, ?_, rfl, rfl⟩ <;> simp [initState, BATCH_SIZE]

/-- Unfolds the accept path of `process_chat_message` on a fresh message. -/
lemma process_new (st : HarvestState) (m : ChatMessage)
    (hnew : m.get_unique_id ∉ st.seen_messages) :
    process_chat_message st m =
      if BATCH_SIZE ≤ st.current_batch.length + 1 then
        write_batch_to_csv
          { st with
            seen_messages := m.get_unique_id :: st.seen_messages
            current_batch := st.current_batch ++ [m]
            total_messages := st.total_messages + 1 }
      else
        { st with
          seen_messages := m.get_unique_id :: st.seen_messages
          current_batch := st.current_batch ++ [m]
          total_messages := st.total_messages + 1 } := by
  simp [process_chat_message, hnew]

/-- A message already seen is rejected without any state change. -/
lemma process_seen (st : HarvestState) (m : ChatMessage)
    (h : m.get_unique_id ∈ st.seen_messages) :
    process_chat_message st m = st := by
  simp [process_chat_message, h]

/-- Accept without flush, as an explicit state. -/
lemma process_new_noflush (st : HarvestState) (m : ChatMessage)
    (hnew : m.get_unique_id ∉ st.seen_messages)
    (hsmall : ¬ BATCH_SIZE ≤ st.current_batch.length + 1) :
    process_chat_message st m =
      { st with
        seen_messages := m.get_unique_id :: st.seen_messages
        current_batch := st.current_batch ++ [m]
        total_messages := st.total_messages + 1 } := by
  rw [process_new st m hnew, if_neg hsmall]

/-- Accept that fills the batch and flushes, as an explicit state. -/
lemma process_new_flush (st : HarvestState) (m : ChatMessage)
    (hnew : m.get_unique_id ∉ st.seen_messages)
    (hfull : BATCH_SIZE ≤ st.current_batch.length + 1) :
    process_chat_message st m =
      { seen_messages := m.get_unique_id :: st.seen_messages
        current_batch := []
        total_messages := st.total_messages + 1
        file_rows :=
          if BATCH_SIZE < st.total_messages + 1 then
            st.file_rows ++ (st.current_batch ++ [m]).map ChatMessage.to_csv_row
          else
            headerRow :: (st.current_batch ++ [m]).map ChatMessage.to_csv_row
        flush_modes := st.flush_modes ++ [decide (BATCH_SIZE < st.total_messages + 1)] } := by
  rw [process_new st m hnew, if_pos hfull, write_batch_to_csv]

lemma InvAcc_step (acc : List ChatMessage) (st : HarvestState) (m : ChatMessage)
    (hInv : InvAcc acc st) (hnew : m.get_unique_id ∉ st.seen_messages) :
    InvAcc (acc ++ [m]) (process_chat_message st m) ∧
    (process_chat_message st m).seen_messages = m.get_unique_id :: st.seen_messages := by
  obtain ⟨hb, ht, hlo, hhi, hm, hf⟩ := hInv
  have hseen : (process_chat_message st m).seen_messages =
      m.get_unique_id :: st.seen_messages := by
    rw [process_new st m hnew]
    split
    · rw [write_batch_to_csv]
    · rfl
  refine ⟨?_, hseen⟩
  have hbl : st.current_batch.length = acc.length - BATCH_SIZE * st.flush_modes.length := by
    rw [hb, List.length_drop]
  simp only [BATCH_SIZE] at hb ht hlo hhi hf hbl ⊢
  by_cases hfull : BATCH_SIZE ≤ st.current_batch.length + 1
  · -- the new message fills the batch: a flush happens now
    rw [process_new_flush st m hnew hfull]
    simp only [BATCH_SIZE] at hfull
    have hn1 : acc.length + 1 = 500 * (st.flush_modes.length + 1) := by omega
    cases hk : st.flush_modes.length with
    | zero =>
      rw [hk] at hm hn1
      have hm0 : st.flush_modes = [] := hm
      have hnotApp : ¬ (500 < st.total_messages + 1) := by omega
      have hdec : decide (500 < st.total_messages + 1) = false :=
        decide_eq_false hnotApp
      refine ⟨?_, ?_, ?_, ?_, ?_, ?_⟩ <;>
        simp only [hm0, hb, hk, hdec, if_neg hnotApp, Nat.mul_zero, Nat.mul_one,
          List.drop_zero, List.nil_append, List.length_cons, List.length_nil,
          List.length_append, BATCH_SIZE, Nat.zero_add]
      · exact (List.drop_eq_nil_of_le (by simp; omega)).symm
      · omega
      · omega
      · omega
      · rfl
      · rw [if_neg (by omega : ¬ (1 : Nat) = 0),
          List.take_of_length_le (by simp; omega)]
    | succ j =>
      rw [hk] at hm hn1
      have hmS : st.flush_modes = modesFor (j + 1) := hm
      have hApp : 500 < st.total_messages + 1 := by omega
      have hdec : decide (500 < st.total_messages + 1) = true := decide_eq_true hApp
      refine ⟨?_, ?_, ?_, ?_, ?_, ?_⟩ <;>
        simp only [hmS, hb, hk, hdec, if_pos hApp, modesFor_snoc_a, modesFor_length,
          List.length_cons, List.length_nil, List.length_append,
          BATCH_SIZE, Nat.zero_add]
      · exact (List.drop_eq_nil_of_le (by simp; omega)).symm
      · omega
      · omega
      · omega
      · rw [if_neg (by omega : ¬ j + 2 = 0), hf, hk,
          if_neg (by omega : ¬ j + 1 = 0),
          List.take_of_length_le (l := acc ++ [m]) (by simp; omega)]
        simp only [List.cons_append]
        rw [← List.map_append, ← List.append_assoc, List.take_append_drop]
  · -- the batch still has room: no flush
    rw [process_new_noflush st m hnew hfull]
    simp only [BATCH_SIZE] at hfull
    have hzero : 500 * st.flush_modes.length - acc.length = 0 := by omega
    refine ⟨?_, ?_, ?_, ?_, ?_, ?_⟩ <;>
      simp only [List.length_append, List.length_cons, List.length_nil,
        BATCH_SIZE, Nat.zero_add]
    · rw [List.drop_append_eq_append_drop, hzero, List.drop_zero, hb]
    · omega
    · omega
    · omega
    · exact hm
    · rw [List.take_append_eq_append_take, hzero, List.take_zero, List.append_nil, hf]

/-- Processing a whole candidate sequence extends the accepted sequence by
exactly the candidates the deduplicator admits, preserving the invariant. -/
lemma processAll_invAcc (ms : List ChatMessage) :
    ∀ (acc : List ChatMessage) (st : HarvestState), InvAcc acc st →
      InvAcc (acc ++ acceptedOf st.seen_messages ms) (processAll st ms) := by
  induction ms with
  | nil =>
    intro acc st h
    simpa [processAll, acceptedOf] using h
  | cons m ms ih =>
    intro acc st h
    have hfold : processAll st (m :: ms) = processAll (process_chat_message st m) ms := rfl
    by_cases hmem : m.get_unique_id ∈ st.seen_messages
    · rw [hfold, process_seen st m hmem, acceptedOf, if_pos hmem]
      exact ih acc st h
    · obtain ⟨h1, h2⟩ := InvAcc_step acc st m h hmem
      have h3 := ih (acc ++ [m]) (process_chat_message st m) h1
      rw [h2] at h3
      rw [hfold, acceptedOf, if_neg hmem]
      simpa [List.append_assoc] using h3

/-- The state after the accept phase of a session satisfies the invariant with
respect to the accepted subsequence of the candidates. -/
lemma processAll_spec (ms : List ChatMessage) :
    InvAcc (acceptedOf [] ms) (processAll initState ms) := by
  have h := processAll_invAcc ms [] initState InvAcc_init
  simpa [initState] using h

/-- The final drain: afterwards the file holds the header followed by every
accepted message's row in admission order (and nothing at all if nothing was
accepted), the flush-mode history is `'w'` then `'a'`s, a flush happened iff
something was accepted, and the counter equals the number accepted. -/
lemma drain_spec (acc : List ChatMessage) (st : HarvestState) (hInv : InvAcc acc st) :
    (drainBatch st).file_rows =
      (if acc = [] then ([] : List (List String))
       else headerRow :: acc.map ChatMessage.to_csv_row) ∧
    (drainBatch st).flush_modes = modesFor (drainBatch st).flush_modes.length ∧
    (acc = [] ↔ (drainBatch st).flush_modes.length = 0) ∧
    (drainBatch st).total_messages = acc.length := by
  obtain ⟨hb, ht, hlo, hhi, hm, hf⟩ := hInv
  simp only [BATCH_SIZE] at hb ht hlo hhi hf
  by_cases hbe : st.current_batch = []
  · rw [drainBatch, if_pos hbe]
    rw [hbe] at hb
    have hneq : acc.length = 500 * st.flush_modes.length := by
      have := List.drop_eq_nil_iff_le.mp hb.symm
      omega
    cases hk : st.flush_modes.length with
    | zero =>
      rw [hk] at hneq hm
      have hacc : acc = [] := by
        rw [← List.length_eq_zero]
        omega
      rw [hk] at hf
      refine ⟨?_, ?_, ?_, ?_⟩
      · rw [if_pos hacc]
        simpa using hf
      · exact hm
      · simp [hacc, hk]
      · rw [ht, hacc]
    | succ j =>
      rw [hk] at hneq hm hf
      have hacc : acc ≠ [] := by
        intro hcon
        rw [hcon] at hneq
        simp at hneq
      refine ⟨?_, ?_, ?_, ?_⟩
      · rw [if_neg hacc, hf, if_neg (by omega : ¬ j + 1 = 0),
          List.take_of_length_le (by omega)]
      · exact hm
      · simp [hacc, hk]
      · exact ht
  · rw [drainBatch, if_neg hbe, write_batch_to_csv]
    have hlt : 500 * st.flush_modes.length < acc.length := by
      by_contra hcon
      push_neg at hcon
      exact hbe (by rw [hb]; exact List.drop_eq_nil_of_le hcon)
    have hacc : acc ≠ [] := by
      intro hcon
      rw [hcon] at hlt
      simp at hlt
    cases hk : st.flush_modes.length with
    | zero =>
      rw [hk] at hm hlt hhi hf
      have hnotApp : ¬ (BATCH_SIZE < st.total_messages) := by
        simp only [BATCH_SIZE]
        omega
      have hdec : decide (BATCH_SIZE < st.total_messages) = false :=
        decide_eq_false hnotApp
      have hm0 : st.flush_modes = [] := hm
      refine ⟨?_, ?_, ?_, ?_⟩ <;>
        simp only [hm0, hdec, if_neg hnotApp, List.nil_append, List.length_cons,
          List.length_nil, Nat.zero_add]
      · rw [if_neg hacc, hb, hk]
        simp
      · rfl
      · simp [hacc]
      · exact ht
    | succ j =>
      rw [hk] at hm hlt hhi hlo hf
      have hApp : BATCH_SIZE < st.total_messages := by
        simp only [BATCH_SIZE]
        omega
      have hdec : decide (BATCH_SIZE < st.total_messages) = true := decide_eq_true hApp
      have hmS : st.flush_modes = modesFor (j + 1) := hm
      refine ⟨?_, ?_, ?_, ?_⟩ <;>
        simp only [hmS, hdec, if_pos hApp, modesFor_snoc_a, modesFor_length,
          List.length_cons, List.length_nil, Nat.zero_add]
      · rw [if_neg hacc, hf, if_neg (by omega : ¬ j + 1 = 0), hb, hk]
        simp only [List.cons_append]
        rw [← List.map_append, List.take_append_drop]
      · simp [hacc]
      · exact ht

/-! ## Claims about batching, the header, the file contents and accounting -/

/-- C2: in any session that performs at least one flush, the header row is
written exactly once — by the first flush, which runs in mode `'w'` and
creates/truncates the file — and every later flush appends without rewriting
it (mode `'a'`, recorded as `true`); consequently the file starts with the
header.  This holds even though the code selects the mode by comparing
`total_messages` with `BATCH_SIZE` instead of keeping a first-flush flag. -/
theorem header_once (ms : List ChatMessage)
    (h : 1 ≤ (runSession ms).flush_modes.length) :
    (runSession ms).flush_modes.count false = 1 ∧
    (runSession ms).flush_modes.head? = some false ∧
    (runSession ms).file_rows.head? = some headerRow := by
  obtain ⟨hfile, hmodes, hiff, htot⟩ :=
    drain_spec (acceptedOf [] ms) (processAll initState ms) (processAll_spec ms)
  rw [runSession] at h ⊢
  cases hk : (drainBatch (processAll initState ms)).flush_modes.length with
  | zero =>
    rw [hk] at h
    omega
  | succ j =>
    rw [hk] at hmodes
    have hne : acceptedOf [] ms ≠ [] := by
      intro hcon
      have h0 := hiff.mp hcon
      omega
    refine ⟨?_, ?_, ?_⟩
    · rw [hmodes]
      simp [modesFor, List.count_replicate]
    · rw [hmodes]
      rfl
    · rw [hfile, if_neg hne]
      rfl

/-- C5: after a session in which at least one message was accepted, the output
file consists of the header row followed by exactly the accepted messages'
four-field rows, in admission order. -/
theorem row_fidelity (ms : List ChatMessage) (h : acceptedOf [] ms ≠ []) :
    (runSession ms).file_rows =
      headerRow :: (acceptedOf [] ms).map ChatMessage.to_csv_row := by
  obtain ⟨hfile, -, -, -⟩ :=
    drain_spec (acceptedOf [] ms) (processAll initState ms) (processAll_spec ms)
  rw [runSession, hfile, if_neg h]

/-- C10: between operations, `total_messages` equals the number of data rows
already flushed to the file (the file's length minus the header once a flush
has happened) plus the number of buffered messages; the flush-mode history is
`'w'` for the first flush and `'a'` for every later one (the mode each flush
computed from `total_messages > BATCH_SIZE`); and whenever the batch is
nonempty — in particular at the moment a flush is invoked —
`total_messages > BATCH_SIZE` holds exactly when a previous flush occurred. -/
theorem accounting_invariant (ms : List ChatMessage) :
    (processAll initState ms).total_messages =
        (if (processAll initState ms).flush_modes.length = 0 then
          (processAll initState ms).file_rows.length
        else (processAll initState ms).file_rows.length - 1) +
        (processAll initState ms).current_batch.length ∧
    (processAll initState ms).flush_modes =
      modesFor (processAll initState ms).flush_modes.length ∧
    ((processAll initState ms).current_batch ≠ [] →
      (BATCH_SIZE < (processAll initState ms).total_messages ↔
        1 ≤ (processAll initState ms).flush_modes.length)) := by
  obtain ⟨hb, ht, hlo, hhi, hm, hf⟩ := processAll_spec ms
  simp only [BATCH_SIZE] at hb ht hlo hhi hf ⊢
  refine ⟨?_, hm, ?_⟩
  · by_cases hk0 : (processAll initState ms).flush_modes.length = 0
    · rw [if_pos hk0, hf, if_pos hk0, hb, hk0]
      simp [ht]
    · rw [if_neg hk0, hf, if_neg hk0, hb]
      simp only [List.length_cons, List.length_map, List.length_take,
        List.length_drop]
      omega
  · intro hne
    have hlt : 500 * (processAll initState ms).flush_modes.length <
        (acceptedOf [] ms).length := by
      by_contra hcon
      push_neg at hcon
      exact hne (by rw [hb]; exact List.drop_eq_nil_of_le hcon)
    rw [ht]
    omega

/-- C3: with `BATCH_SIZE = 500`, at the point where exactly 500 messages have
been accepted the writer has performed exactly one flush and the buffer is
empty (the flush fired automatically when the 500th accept filled the batch,
and clearing happened after the flush); at 501 accepted messages the buffer
holds exactly the one message past the flush. -/
theorem batch_boundary (ms1 ms2 : List ChatMessage)
    (h1 : (acceptedOf [] ms1).length = BATCH_SIZE)
    (h2 : (acceptedOf [] ms2).length = BATCH_SIZE + 1) :
    ((processAll initState ms1).flush_modes.length = 1 ∧
      (processAll initState ms1).current_batch = []) ∧
    ((processAll initState ms2).flush_modes.length = 1 ∧
      (processAll initState ms2).current_batch.length = 1) := by
  obtain ⟨hb1, ht1, hlo1, hhi1, hm1, hf1⟩ := processAll_spec ms1
  obtain ⟨hb2, ht2, hlo2, hhi2, hm2, hf2⟩ := processAll_spec ms2
  simp only [BATCH_SIZE] at h1 h2 hb1 hlo1 hhi1 hb2 hlo2 hhi2
  have hk1 : (processAll initState ms1).flush_modes.length = 1 := by omega
  have hk2 : (processAll initState ms2).flush_modes.length = 1 := by omega
  refine ⟨⟨hk1, ?_⟩, ⟨hk2, ?_⟩⟩
  · rw [hb1, hk1]
    exact List.drop_eq_nil_of_le (by omega)
  · rw [hb2, hk2, List.length_drop]
    omega

/-! ## The deduplicator -/

/-- The accepted subsequence never repeats a fingerprint, and never contains a
fingerprint that was already seen when processing started. -/
lemma acceptedOf_ids_nodup (ms : List ChatMessage) :
    ∀ seen : List String,
      ((acceptedOf seen ms).map ChatMessage.get_unique_id).Nodup ∧
      ∀ m ∈ acceptedOf seen ms, m.get_unique_id ∉ seen := by
  induction ms with
  | nil =>
    intro seen
    simp [acceptedOf]
  | cons m ms ih =>
    intro seen
    by_cases hmem : m.get_unique_id ∈ seen
    · rw [acceptedOf, if_pos hmem]
      exact ih seen
    · rw [acceptedOf, if_neg hmem]
      obtain ⟨hnd, hfresh⟩ := ih (m.get_unique_id :: seen)
      refine ⟨?_, ?_⟩
      · rw [List.map_cons, List.nodup_cons]
        refine ⟨?_, hnd⟩
        intro hin
        obtain ⟨x, hx, hid⟩ := List.mem_map.mp hin
        exact hfresh x hx (hid ▸ List.mem_cons_self _ _)
      · intro x hx
        rcases List.mem_cons.mp hx with hx1 | hx2
        · rw [hx1]
          exact hmem
        · intro hc
          exact hfresh x hx2 (List.mem_cons_of_mem _ hc)

/-- In a list whose images under `f` are pairwise distinct, at most one
element satisfies any predicate that forces a fixed image `c`. -/
lemma filter_const_of_nodup {α β : Type} (f : α → β) (p : α → Bool) (c : β)
    (l : List α) (hnd : (l.map f).Nodup)
    (hc : ∀ x ∈ l, p x = true → f x = c) :
    (l.filter p).length ≤ 1 := by
  induction l with
  | nil => simp
  | cons a l ih =>
    rw [List.map_cons, List.nodup_cons] at hnd
    by_cases hp : p a = true
    · rw [List.filter_cons_of_pos hp]
      have hnil : l.filter p = [] := by
        rw [List.filter_eq_nil]
        intro x hx hpx
        have h1 : f x = c := hc x (List.mem_cons_of_mem _ hx) hpx
        have h2 : f a = c := hc a (List.mem_cons_self _ _) hp
        exact hnd.1 (List.mem_map.mpr ⟨x, hx, by rw [h1, h2]⟩)
      rw [hnil]
      simp
    · rw [List.filter_cons_of_neg hp]
      exact ih hnd.2 fun x hx => hc x (List.mem_cons_of_mem _ hx)

/-- C1: across any candidate sequence (spanning any number of polls), at most
one message with a given `(author, timestamp, message)` triple is ever
accepted, whatever its `video_time` (stream position); and the fingerprint is
computed from the triple alone, so messages equal on the triple get equal
fingerprints regardless of their stream positions. -/
theorem dedup_idempotence (ms : List ChatMessage) (a t b : String) :
    ((acceptedOf [] ms).filter
        (fun m => m.author == a && m.timestamp == t && m.message == b)).length ≤ 1 ∧
    (∀ m1 m2 : ChatMessage, m1.author = m2.author → m1.timestamp = m2.timestamp →
      m1.message = m2.message → m1.get_unique_id = m2.get_unique_id) := by
  constructor
  · refine filter_const_of_nodup ChatMessage.get_unique_id _
      (a ++ "_" ++ t ++ "_" ++ b) (acceptedOf [] ms)
      (acceptedOf_ids_nodup ms []).1 ?_
    intro x hx hpx
    simp only [Bool.and_eq_true, beq_iff_eq] at hpx
    obtain ⟨⟨ha, ht⟩, hb⟩ := hpx
    rw [ChatMessage.get_unique_id, ha, ht, hb]
  · intro m1 m2 ha ht hb
    rw [ChatMessage.get_unique_id, ChatMessage.get_unique_id, ha, ht, hb]

/-! ## Witness infrastructure: concrete distinct candidates -/

/-- The fingerprint of `mkMsg n` has length `n + 5`. -/
lemma mkMsg_id_length (n : Nat) : (mkMsg n).get_unique_id.length = n + 5 := by
  have h1 : ("_" : String).length = 1 := rfl
  have h2 : ("t" : String).length = 1 := rfl
  have h3 : ("hi" : String).length = 2 := rfl
  have h4 : (String.mk (List.replicate n 'a')).length = n := by
    show (List.replicate n 'a').length = n
    simp
  show (String.mk (List.replicate n 'a') ++ "_" ++ "t" ++ "_" ++ "hi").length = n + 5
  rw [String.length_append, String.length_append, String.length_append,
    String.length_append, h1, h2, h3, h4]

/-- Distinct indices give distinct fingerprints. -/
lemma mkMsg_id_inj : Function.Injective (fun n => (mkMsg n).get_unique_id) := by
  intro i j h
  have hlen := congrArg String.length h
  simp only [mkMsg_id_length] at hlen
  omega

/-- A candidate sequence with pairwise-distinct fingerprints, none already
seen, is accepted wholesale. -/
lemma acceptedOf_eq_self (ms : List ChatMessage) :
    ∀ seen : List String, (∀ m ∈ ms, m.get_unique_id ∉ seen) →
      (ms.map ChatMessage.get_unique_id).Nodup → acceptedOf seen ms = ms := by
  induction ms with
  | nil =>
    intro seen _ _
    rfl
  | cons m ms ih =>
    intro seen hfresh hnd
    rw [List.map_cons, List.nodup_cons] at hnd
    rw [acceptedOf, if_neg (hfresh m (List.mem_cons_self _ _))]
    congr 1
    refine ih _ ?_ hnd.2
    intro x hx hc
    rcases List.mem_cons.mp hc with hc1 | hc2
    · exact hnd.1 (List.mem_map.mpr ⟨x, hx, hc1⟩)
    · exact hfresh x (List.mem_cons_of_mem _ hx) hc2

/-- The fingerprints of `mkMsgs n` are pairwise distinct. -/
lemma mkMsgs_nodup_ids (n : Nat) :
    ((mkMsgs n).map ChatMessage.get_unique_id).Nodup := by
  rw [mkMsgs, List.map_map]
  exact List.Nodup.map mkMsg_id_inj (List.nodup_range n)

/-- All of `mkMsgs n` is accepted. -/
lemma acceptedOf_mkMsgs (n : Nat) : acceptedOf [] (mkMsgs n) = mkMsgs n :=
  acceptedOf_eq_self (mkMsgs n) [] (by simp) (mkMsgs_nodup_ids n)

/-- There are `n` candidates in `mkMsgs n`. -/
lemma mkMsgs_length (n : Nat) : (mkMsgs n).length = n := by
  simp [mkMsgs]

/-! ## Witnesses -/

/-- Witness for `dedup_idempotence`: two copies of one logical message seen at
two different stream positions; only one is accepted, and their fingerprints
agree. -/
theorem dedup_idempotence_witness :
    ((acceptedOf []
        [ChatMessage.mk "0:05" "a" "t" "x", ChatMessage.mk "0:09" "a" "t" "x"]).filter
          (fun m => m.author == "a" && m.timestamp == "t" && m.message == "x")).length ≤ 1 ∧
    (ChatMessage.mk "0:05" "a" "t" "x").get_unique_id =
      (ChatMessage.mk "0:09" "a" "t" "x").get_unique_id :=
  ⟨(dedup_idempotence
      [ChatMessage.mk "0:05" "a" "t" "x", ChatMessage.mk "0:09" "a" "t" "x"]
      "a" "t" "x").1,
   (dedup_idempotence [] "a" "t" "x").2
      (ChatMessage.mk "0:05" "a" "t" "x") (ChatMessage.mk "0:09" "a" "t" "x")
      rfl rfl rfl⟩

/-- Witness for `header_once` on a one-message session (single drain flush). -/
theorem header_once_witness :
    (runSession [mkMsg 0]).flush_modes.count false = 1 ∧
    (runSession [mkMsg 0]).flush_modes.head? = some false ∧
    (runSession [mkMsg 0]).file_rows.head? = some headerRow :=
  header_once [mkMsg 0] (by decide)

/-- Witness for `batch_boundary` on 500 and 501 distinct candidates. -/
theorem batch_boundary_witness :
    ((processAll initState (mkMsgs 500)).flush_modes.length = 1 ∧
      (processAll initState (mkMsgs 500)).current_batch = []) ∧
    ((processAll initState (mkMsgs 501)).flush_modes.length = 1 ∧
      (processAll initState (mkMsgs 501)).current_batch.length = 1) :=
  batch_boundary (mkMsgs 500) (mkMsgs 501)
    (by rw [acceptedOf_mkMsgs, mkMsgs_length]; rfl)
    (by rw [acceptedOf_mkMsgs, mkMsgs_length]; rfl)

/-- Witness for `row_fidelity` on a one-message session. -/
theorem row_fidelity_witness :
    (runSession [mkMsg 0]).file_rows =
      headerRow :: (acceptedOf [] [mkMsg 0]).map ChatMessage.to_csv_row :=
  row_fidelity [mkMsg 0] (by decide)

/-- Witness for `accounting_invariant` on a one-message session (batch
nonempty, no flush yet). -/
theorem accounting_invariant_witness :
    BATCH_SIZE < (processAll initState [mkMsg 0]).total_messages ↔
      1 ≤ (processAll initState [mkMsg 0]).flush_modes.length :=
  (accounting_invariant [mkMsg 0]).2.2 (by decide)
